import Mathlib

/-!
Shallow embedding of `src/task01.py` (a command-line contact manager).

The Python code stores contacts (name, list of 10-digit phone strings,
optional birthday string in `%d.%m.%Y` format) in an insertion-ordered
dict, and `AddressBook.get_birthdays_per_week` buckets upcoming birthdays
by weekday name over a 7-day window anchored at the next Monday.

Python exceptions are modelled with `Except PyError`; `datetime.date`
values are modelled by a `Date` structure over `Nat` with the proleptic
Gregorian calendar (Python's `date` semantics: years 1..9999, Monday has
weekday index 0, `date(1,1,1).weekday() == 0`).
-/

namespace Task01

/-- The Python exception kinds the program can raise. -/
inductive PyError where
  | valueError (msg : String)
  | attributeError
  | keyError
  deriving DecidableEq, Repr

/-- A calendar date, as Python's `datetime.date` (year, month, day). -/
structure Date where
  year : Nat
  month : Nat
  day : Nat
  deriving DecidableEq, Repr

/-- Gregorian leap-year rule, as Python's `calendar`/`datetime`. -/
def isLeap (y : Nat) : Bool :=
  (y % 4 == 0 && y % 100 != 0) || y % 400 == 0

/-- Number of days in a month (1..12) of year `y`. -/
def daysInMonth (y m : Nat) : Nat :=
  match m with
  | 1 => 31
  | 2 => if isLeap y then 29 else 28
  | 3 => 31
  | 4 => 30
  | 5 => 31
  | 6 => 30
  | 7 => 31
  | 8 => 31
  | 9 => 30
  | 10 => 31
  | 11 => 30
  | 12 => 31
  | _ => 0

/-- A calendar-valid date within Python's `date` year range 1..9999:
what `datetime.date(y, m, d)` accepts. -/
def pyValid (y m d : Nat) : Prop :=
  1 ≤ y ∧ y ≤ 9999 ∧ 1 ≤ m ∧ m ≤ 12 ∧ 1 ≤ d ∧ d ≤ daysInMonth y m

instance (y m d : Nat) : Decidable (pyValid y m d) :=
  inferInstanceAs (Decidable (1 ≤ y ∧ y ≤ 9999 ∧ 1 ≤ m ∧ m ≤ 12 ∧ 1 ≤ d ∧
    d ≤ daysInMonth y m))

/-- A calendar-valid date with no upper year bound, used for the date
arithmetic lemmas (Python only bounds years at construction time). -/
def okDate (dt : Date) : Prop :=
  1 ≤ dt.year ∧ 1 ≤ dt.month ∧ dt.month ≤ 12 ∧ 1 ≤ dt.day ∧
    dt.day ≤ daysInMonth dt.year dt.month

instance (dt : Date) : Decidable (okDate dt) :=
  inferInstanceAs (Decidable (1 ≤ dt.year ∧ 1 ≤ dt.month ∧ dt.month ≤ 12 ∧
    1 ≤ dt.day ∧ dt.day ≤ daysInMonth dt.year dt.month))

/-- `datetime.date(y, m, d)` / `date.replace`: validates and constructs,
raising `ValueError` on an invalid combination (e.g. Feb 29 in a
non-leap year). -/
def mkDate (y m d : Nat) : Except PyError Date :=
  if pyValid y m d then .ok ⟨y, m, d⟩
  else .error (.valueError "day is out of range for month")

/-- Python `date < date`: lexicographic on (year, month, day). -/
def dateLt (a b : Date) : Prop :=
  a.year < b.year ∨
    (a.year = b.year ∧ (a.month < b.month ∨
      (a.month = b.month ∧ a.day < b.day)))

instance (a b : Date) : Decidable (dateLt a b) :=
  inferInstanceAs (Decidable (a.year < b.year ∨
    (a.year = b.year ∧ (a.month < b.month ∨
      (a.month = b.month ∧ a.day < b.day)))))

/-- Days elapsed before January 1 of year `y` since 0001-01-01
(the standard proleptic-Gregorian count used by `date.toordinal`). -/
def daysBeforeYear (y : Nat) : Nat :=
  365 * (y - 1) + (y - 1) / 4 - (y - 1) / 100 + (y - 1) / 400

/-- Days elapsed in year `y` before the first day of month `m`. -/
def daysBeforeMonth (y m : Nat) : Nat :=
  (match m with
   | 1 => 0
   | 2 => 31
   | 3 => 59
   | 4 => 90
   | 5 => 120
   | 6 => 151
   | 7 => 181
   | 8 => 212
   | 9 => 243
   | 10 => 273
   | 11 => 304
   | 12 => 334
   | _ => 0) + (if 3 ≤ m && isLeap y then 1 else 0)

/-- `date.toordinal`: 0001-01-01 is day 1. -/
def toOrdinal (dt : Date) : Nat :=
  daysBeforeYear dt.year + daysBeforeMonth dt.year dt.month + dt.day

/-- `date.weekday()`: 0 = Monday .. 6 = Sunday
(`date(1,1,1).weekday() == 0`). -/
def weekday (dt : Date) : Nat :=
  (toOrdinal dt + 6) % 7

/-- The day after `dt` (calendar successor). -/
def nextDay (dt : Date) : Date :=
  if dt.day < daysInMonth dt.year dt.month then ⟨dt.year, dt.month, dt.day + 1⟩
  else if dt.month < 12 then ⟨dt.year, dt.month + 1, 1⟩
  else ⟨dt.year + 1, 1, 1⟩

/-- The day before `dt` (calendar predecessor). -/
def prevDay (dt : Date) : Date :=
  if 1 < dt.day then ⟨dt.year, dt.month, dt.day - 1⟩
  else if 1 < dt.month then ⟨dt.year, dt.month - 1, daysInMonth dt.year (dt.month - 1)⟩
  else ⟨dt.year - 1, 12, 31⟩

/-- `date + timedelta(days = n)` for `n ≥ 0`. -/
def addDays (dt : Date) (n : Nat) : Date :=
  Nat.iterate nextDay n dt

/-- `date + timedelta(days = k)` for a possibly negative `k`. -/
def addDaysInt (dt : Date) (k : Int) : Date :=
  if 0 ≤ k then addDays dt k.toNat else Nat.iterate prevDay (-k).toNat dt

/-- `(a - b).days` for Python dates. -/
def dateSub (a b : Date) : Int :=
  (toOrdinal a : Int) - (toOrdinal b : Int)

/-- English weekday names, Monday first: what `strftime("%A")` yields in
the C locale, indexed by `weekday`. -/
def dayNames : List String :=
  ["Monday", "Tuesday", "Wednesday", "Thursday", "Friday", "Saturday", "Sunday"]

/-- `date.strftime("%A")`. -/
def strftimeA (dt : Date) : String :=
  dayNames.getD (weekday dt) ""

/-! ### The `%d.%m.%Y` parser (`datetime.strptime(s, "%d.%m.%Y")`)

CPython's `_strptime` matches `%d` with regex `(3[01]|[12]\d|0[1-9]|[1-9])`
(two-digit alternatives first), `%m` with `(1[0-2]|0[1-9]|[1-9])`, `%Y`
with exactly four digits, requires the whole string to match, and then
constructs a `datetime` (which validates the calendar date). -/

/-- Decimal value of a digit character. -/
def digitVal (c : Char) : Nat := c.toNat - 48

/-- Parse `%Y` followed by end of input: exactly four digits. -/
def parseYearEnd (cs : List Char) : Option Nat :=
  match cs with
  | [a, b, c, d] =>
    if a.isDigit && b.isDigit && c.isDigit && d.isDigit then
      some (1000 * digitVal a + 100 * digitVal b + 10 * digitVal c + digitVal d)
    else none
  | _ => none

/-- Parse `%m.%Y` to end of input: month (two-digit form tried first,
as the regex alternation orders it), literal dot, year. -/
def parseMY (cs : List Char) : Option (Nat × Nat) :=
  let try2 : Option (Nat × Nat) :=
    match cs with
    | c1 :: c2 :: '.' :: rest =>
      if c1.isDigit && c2.isDigit && 1 ≤ 10 * digitVal c1 + digitVal c2 &&
          10 * digitVal c1 + digitVal c2 ≤ 12 then
        (parseYearEnd rest).map (fun y => (10 * digitVal c1 + digitVal c2, y))
      else none
    | _ => none
  let try1 : Option (Nat × Nat) :=
    match cs with
    | c1 :: '.' :: rest =>
      if c1.isDigit && 1 ≤ digitVal c1 then
        (parseYearEnd rest).map (fun y => (digitVal c1, y))
      else none
    | _ => none
  try2 <|> try1

/-- Parse `%d.%m.%Y`: day (two-digit form tried first), dot, month, dot,
year, end of input. Returns `(day, month, year)`. -/
def parseDMY (cs : List Char) : Option (Nat × Nat × Nat) :=
  let try2 : Option (Nat × Nat × Nat) :=
    match cs with
    | c1 :: c2 :: '.' :: rest =>
      if c1.isDigit && c2.isDigit && 1 ≤ 10 * digitVal c1 + digitVal c2 &&
          10 * digitVal c1 + digitVal c2 ≤ 31 then
        (parseMY rest).map (fun p => (10 * digitVal c1 + digitVal c2, p.1, p.2))
      else none
    | _ => none
  let try1 : Option (Nat × Nat × Nat) :=
    match cs with
    | c1 :: '.' :: rest =>
      if c1.isDigit && 1 ≤ digitVal c1 then
        (parseMY rest).map (fun p => (digitVal c1, p.1, p.2))
      else none
    | _ => none
  try2 <|> try1

/-- `datetime.strptime(s, "%d.%m.%Y").date()`: regex match, then date
construction; both failure modes raise `ValueError`. -/
def strptimeDMY (s : String) : Except PyError Date :=
  match parseDMY s.toList with
  | some (d, m, y) => mkDate y m d
  | none => .error (.valueError "time data does not match format")

/-! ### Fields, Record, AddressBook (`task01.py` lines 15-87) -/

/-- `Phone` field: holds the phone string (validated at construction). -/
structure Phone where
  value : String
  deriving DecidableEq, Repr

/-- `Phone.validate` (line 31-32): exactly 10 characters, all digits. -/
def phoneValid (s : String) : Bool :=
  s.length == 10 && s.toList.all Char.isDigit

/-- `Phone.__init__` (lines 26-29): store, then raise `ValueError` if
invalid. -/
def mkPhone (s : String) : Except PyError Phone :=
  if phoneValid s then .ok ⟨s⟩
  else .error (.valueError "Invalid phone number format")

/-- `Birthday` field: holds the original date string. -/
structure Birthday where
  value : String
  deriving DecidableEq, Repr

/-- `Birthday.validate` (lines 40-45): the string parses as `%d.%m.%Y`. -/
def birthdayValid (s : String) : Bool :=
  (strptimeDMY s).toBool

/-- `Birthday.__init__` (lines 35-38). -/
def mkBirthday (s : String) : Except PyError Birthday :=
  if birthdayValid s then .ok ⟨s⟩
  else .error (.valueError "Invalid date format")

/-- `Record` (lines 47-51): a name, a list of phones, an optional
birthday. -/
structure Record where
  name : String
  phones : List Phone
  birthday : Option Birthday
  deriving DecidableEq, Repr

namespace Record

/-- `Record.add_phone` (lines 53-54): construct a `Phone` (may raise) and
append it. -/
def add_phone (r : Record) (phone_number : String) : Except PyError Record :=
  (mkPhone phone_number).map fun p => { r with phones := r.phones ++ [p] }

/-- `Record.remove_phone` (lines 56-57): keep phones whose value differs. -/
def remove_phone (r : Record) (phone_number : String) : Record :=
  { r with phones := r.phones.filter (fun p => p.value ≠ phone_number) }

/-- `Record.find_phone` (lines 68-72): first phone with the given value,
else `None`. -/
def find_phone (r : Record) (phone_number : String) : Option Phone :=
  r.phones.find? (fun p => p.value == phone_number)

/-- Replace the first phone whose value is `old` by a phone holding `new`
(Python mutates the object `find_phone` returned in place). -/
def replaceFirst (ps : List Phone) (old new : String) : List Phone :=
  match ps with
  | [] => []
  | p :: rest =>
    if p.value == old then ⟨new⟩ :: rest else p :: replaceFirst rest old new

/-- `Record.edit_phone` (lines 59-61): `find_phone(old).value = new`.
No validation of `new`; if `old` is absent, `find_phone` returns `None`
and the attribute assignment raises `AttributeError`. -/
def edit_phone (r : Record) (old_number new_number : String) :
    Except PyError Record :=
  match r.find_phone old_number with
  | some _ => .ok { r with phones := replaceFirst r.phones old_number new_number }
  | none => .error .attributeError

/-- `Record.add_birthday` (lines 63-66): raise if a birthday is already
set, else validate and store. -/
def add_birthday (r : Record) (birthday : String) : Except PyError Record :=
  match r.birthday with
  | some _ => .error (.valueError "Birthday already exists for this contact")
  | none => (mkBirthday birthday).map fun b => { r with birthday := some b }

end Record

/-- `AddressBook` (line 79): a `UserDict` keyed by name; Python dicts
preserve insertion order, and assignment to an existing key replaces the
value in place. Modelled as an insertion-ordered association list. -/
structure AddressBook where
  data : List (String × Record)
  deriving DecidableEq, Repr

/-- Python `dict.__setitem__`: replace in place if the key exists, else
append. -/
def dictSet (l : List (String × Record)) (k : String) (v : Record) :
    List (String × Record) :=
  match l with
  | [] => [(k, v)]
  | (k', v') :: rest =>
    if k' == k then (k, v) :: rest else (k', v') :: dictSet rest k v

namespace AddressBook

/-- `AddressBook.add_record` (lines 80-81):
`self.data[record.name.value] = record`. -/
def add_record (book : AddressBook) (r : Record) : AddressBook :=
  ⟨dictSet book.data r.name r⟩

/-- `AddressBook.find` (lines 83-84): `self.data.get(name)`. -/
def find (book : AddressBook) (name : String) : Option Record :=
  (book.data.find? (fun p => p.1 == name)).map (·.2)

/-- `AddressBook.delete` (lines 86-87): `del self.data[name]`, raising
`KeyError` when absent. -/
def delete (book : AddressBook) (name : String) : Except PyError AddressBook :=
  if (book.data.find? (fun p => p.1 == name)).isSome then
    .ok ⟨book.data.filter (fun p => !(p.1 == name))⟩
  else .error .keyError

end AddressBook

/-! ### `get_birthdays_per_week` (lines 89-111)

The function reads `datetime.today()`; the embedding takes `today` as an
explicit parameter. The `defaultdict(list)` result, iterated in insertion
order, is modelled as an insertion-ordered association list of buckets. -/

/-- Weekday-name buckets in insertion order. -/
abbrev Buckets := List (String × List String)

/-- `defaultdict(list)` append: `birthdays[weekday].append(name)`. -/
def bucketAdd (bs : Buckets) (k v : String) : Buckets :=
  match bs with
  | [] => [(k, [v])]
  | (k', vs) :: rest =>
    if k' == k then (k', vs ++ [v]) :: rest else (k', vs) :: bucketAdd rest k v

/-- Line 90: `today + timedelta(days=(7 - today.weekday()) % 7)`. -/
def windowStart (today : Date) : Date :=
  addDays today ((7 - weekday today) % 7)

/-- Lines 98-101: anchor the parsed birthday `bd` to the window year,
advancing one year when the anchored date lies strictly before the
window start `t`. Each `replace` may raise `ValueError`. -/
def resolveBirthday (t : Date) (bd : Date) : Except PyError Date :=
  match mkDate t.year bd.month bd.day with
  | .error e => .error e
  | .ok bty =>
    if dateLt bty t then mkDate (t.year + 1) bty.month bty.day else .ok bty

/-- Lines 107-108: `if weekday in ["Saturday", "Sunday"]: weekday = "Monday"`. -/
def weekendToMonday (wd : String) : String :=
  if wd == "Saturday" || wd == "Sunday" then "Monday" else wd

/-- Lines 103-109: compute `delta_days`, keep the record only when
`delta_days < 7`, find the weekday name, fold weekends onto Monday, and
append the name to that bucket. -/
def placeInBucket (t : Date) (bs : Buckets) (name : String) (bty2 : Date) :
    Buckets :=
  if dateSub bty2 t < 7 then
    bucketAdd bs (weekendToMonday (strftimeA (addDaysInt t (dateSub bty2 t)))) name
  else bs

/-- Lines 94-109, body of the loop for one record. Line 96 reads
`record.birthday.value` before any `None` check, so a record without a
birthday raises `AttributeError`; line 97's `if birthday:` then tests
string truthiness. -/
def processRecord (t : Date) (bs : Buckets) (r : Record) :
    Except PyError Buckets :=
  match r.birthday with
  | none => .error .attributeError
  | some b =>
    if b.value ≠ "" then
      match strptimeDMY b.value with
      | .error e => .error e
      | .ok bd =>
        match resolveBirthday t bd with
        | .error e => .error e
        | .ok bty2 => .ok (placeInBucket t bs r.name bty2)
    else .ok bs

/-- The `for record in self.data.values()` loop (line 94), threading the
bucket accumulator; an exception aborts the whole call. -/
def processAll (t : Date) (bs : Buckets) :
    List (String × Record) → Except PyError Buckets
  | [] => .ok bs
  | p :: rest =>
    match processRecord t bs p.2 with
    | .error e => .error e
    | .ok bs' => processAll t bs' rest

/-- `AddressBook.get_birthdays_per_week` (lines 89-111), with `today`
made explicit. -/
def get_birthdays_per_week (today : Date) (book : AddressBook) :
    Except PyError Buckets :=
  processAll (windowStart today) [] book.data

end Task01

namespace Task01

/-! ### Calendar arithmetic lemmas -/

lemma dim_pos (y m : Nat) (h1 : 1 ≤ m) (h2 : m ≤ 12) : 1 ≤ daysInMonth y m := by
  interval_cases m <;> cases h : isLeap y <;> simp [daysInMonth, h]

lemma dbm_step (y m : Nat) (h1 : 1 ≤ m) (h2 : m ≤ 11) :
    daysBeforeMonth y (m + 1) = daysBeforeMonth y m + daysInMonth y m := by
  interval_cases m <;> cases h : isLeap y <;> simp [daysBeforeMonth, daysInMonth, h]

lemma dbm_dim_le (y m : Nat) (h1 : 1 ≤ m) (h2 : m ≤ 12) :
    daysBeforeMonth y m + daysInMonth y m ≤ 365 + (if isLeap y then 1 else 0) := by
  interval_cases m <;> cases h : isLeap y <;> simp [daysBeforeMonth, daysInMonth, h]

lemma isLeap_iff (y : Nat) :
    isLeap y = true ↔ ((y % 4 = 0 ∧ y % 100 ≠ 0) ∨ y % 400 = 0) := by
  simp [isLeap, Bool.or_eq_true, Bool.and_eq_true, decide_eq_true_eq, bne_iff_ne]

lemma dby_step_leap (y : Nat) (h : 1 ≤ y) (hL : isLeap y = true) :
    daysBeforeYear (y + 1) = daysBeforeYear y + 366 := by
  obtain ⟨p, rfl⟩ : ∃ p, y = p + 1 := ⟨y - 1, by omega⟩
  have hc := (isLeap_iff (p + 1)).mp hL
  simp only [daysBeforeYear, Nat.add_sub_cancel]
  rw [Nat.succ_div p 4, Nat.succ_div p 100, Nat.succ_div p 400]
  rcases hc with ⟨h4, h100⟩ | h400
  · rw [if_pos (by omega : 4 ∣ p + 1), if_neg (by omega : ¬ 100 ∣ p + 1),
      if_neg (by omega : ¬ 400 ∣ p + 1)]
    omega
  · rw [if_pos (by omega : 4 ∣ p + 1), if_pos (by omega : 100 ∣ p + 1),
      if_pos (by omega : 400 ∣ p + 1)]
    omega

lemma dby_step_nonleap (y : Nat) (h : 1 ≤ y) (hL : isLeap y = false) :
    daysBeforeYear (y + 1) = daysBeforeYear y + 365 := by
  obtain ⟨p, rfl⟩ : ∃ p, y = p + 1 := ⟨y - 1, by omega⟩
  have hc : ¬ (((p + 1) % 4 = 0 ∧ (p + 1) % 100 ≠ 0) ∨ (p + 1) % 400 = 0) := by
    intro hcon
    exact absurd ((isLeap_iff (p + 1)).mpr hcon) (by simp [hL])
  simp only [daysBeforeYear, Nat.add_sub_cancel]
  rw [Nat.succ_div p 4, Nat.succ_div p 100, Nat.succ_div p 400]
  by_cases hd4 : 4 ∣ p + 1
  · rw [if_pos hd4, if_pos (by omega : 100 ∣ p + 1),
      if_neg (by omega : ¬ 400 ∣ p + 1)]
    omega
  · rw [if_neg hd4, if_neg (by omega : ¬ 100 ∣ p + 1),
      if_neg (by omega : ¬ 400 ∣ p + 1)]
    omega

lemma dby_succ_le (y : Nat) (h : 1 ≤ y) :
    daysBeforeYear y + 365 ≤ daysBeforeYear (y + 1) := by
  cases hL : isLeap y with
  | true => rw [dby_step_leap y h hL]; omega
  | false => rw [dby_step_nonleap y h hL]

lemma dby_mono {y1 y2 : Nat} (h : y1 ≤ y2) : daysBeforeYear y1 ≤ daysBeforeYear y2 := by
  induction y2 with
  | zero => simp_all
  | succ k ih =>
    rcases Nat.lt_or_ge y1 (k + 1) with hlt | hge
    · have hk : daysBeforeYear y1 ≤ daysBeforeYear k := ih (by omega)
      rcases Nat.eq_zero_or_pos k with rfl | hkpos
      · simpa [daysBeforeYear] using hk
      · have := dby_succ_le k hkpos
        omega
    · have : y1 = k + 1 := by omega
      simp [this]

lemma nextDay_eq_a (d : Date) (h1 : d.day < daysInMonth d.year d.month) :
    nextDay d = ⟨d.year, d.month, d.day + 1⟩ := by
  unfold nextDay; rw [if_pos h1]

lemma nextDay_eq_b (d : Date) (h1 : ¬ d.day < daysInMonth d.year d.month)
    (h2 : d.month < 12) : nextDay d = ⟨d.year, d.month + 1, 1⟩ := by
  unfold nextDay; rw [if_neg h1, if_pos h2]

lemma nextDay_eq_c (d : Date) (h1 : ¬ d.day < daysInMonth d.year d.month)
    (h2 : ¬ d.month < 12) : nextDay d = ⟨d.year + 1, 1, 1⟩ := by
  unfold nextDay; rw [if_neg h1, if_neg h2]

lemma dbm_one (y : Nat) : daysBeforeMonth y 1 = 0 := by
  simp [daysBeforeMonth]

lemma dbm_twelve_leap (y : Nat) (hL : isLeap y = true) :
    daysBeforeMonth y 12 = 335 := by
  simp [daysBeforeMonth, hL]

lemma dbm_twelve_nonleap (y : Nat) (hL : isLeap y = false) :
    daysBeforeMonth y 12 = 334 := by
  simp [daysBeforeMonth, hL]

lemma dim_twelve (y : Nat) : daysInMonth y 12 = 31 := by
  simp [daysInMonth]

lemma ord_nextDay (d : Date) (h : okDate d) :
    toOrdinal (nextDay d) = toOrdinal d + 1 := by
  obtain ⟨hy, hm1, hm2, hd1, hd2⟩ := h
  by_cases h1 : d.day < daysInMonth d.year d.month
  · rw [nextDay_eq_a d h1]
    unfold toOrdinal
    dsimp only
    omega
  · by_cases h2 : d.month < 12
    · have hde : d.day = daysInMonth d.year d.month := by omega
      have hs := dbm_step d.year d.month hm1 (by omega)
      rw [nextDay_eq_b d h1 h2]
      unfold toOrdinal
      dsimp only
      omega
    · have hm : d.month = 12 := by omega
      have hdim : daysInMonth d.year d.month = 31 := by rw [hm, dim_twelve]
      have hde : d.day = 31 := by omega
      rw [nextDay_eq_c d h1 h2]
      unfold toOrdinal
      dsimp only
      rw [hm, hde, dbm_one]
      cases hL : isLeap d.year with
      | true => rw [dbm_twelve_leap d.year hL, dby_step_leap d.year hy hL]
      | false => rw [dbm_twelve_nonleap d.year hL, dby_step_nonleap d.year hy hL]

lemma okDate_nextDay (d : Date) (h : okDate d) : okDate (nextDay d) := by
  obtain ⟨hy, hm1, hm2, hd1, hd2⟩ := h
  by_cases h1 : d.day < daysInMonth d.year d.month
  · rw [nextDay_eq_a d h1]
    unfold okDate
    dsimp only
    exact ⟨hy, hm1, hm2, by omega, by omega⟩
  · by_cases h2 : d.month < 12
    · rw [nextDay_eq_b d h1 h2]
      unfold okDate
      dsimp only
      exact ⟨hy, by omega, by omega, by omega,
        dim_pos d.year (d.month + 1) (by omega) (by omega)⟩
    · rw [nextDay_eq_c d h1 h2]
      unfold okDate
      dsimp only
      refine ⟨by omega, by omega, by omega, by omega, ?_⟩
      simp [daysInMonth]

lemma addDays_spec (d : Date) (h : okDate d) (n : Nat) :
    okDate (addDays d n) ∧ toOrdinal (addDays d n) = toOrdinal d + n := by
  induction n with
  | zero => simpa [addDays] using h
  | succ k ih =>
    have hstep : addDays d (k + 1) = nextDay (addDays d k) := by
      simp [addDays, Function.iterate_succ_apply']
    rw [hstep]
    exact ⟨okDate_nextDay _ ih.1,
      by rw [ord_nextDay _ ih.1, ih.2]; omega⟩

lemma weekday_lt (d : Date) : weekday d < 7 := Nat.mod_lt _ (by norm_num)

lemma weekday_addDays (d : Date) (h : okDate d) (n : Nat) :
    weekday (addDays d n) = (weekday d + n) % 7 := by
  simp only [weekday, (addDays_spec d h n).2]
  omega

lemma okDate_windowStart (today : Date) (h : okDate today) :
    okDate (windowStart today) :=
  (addDays_spec today h _).1

lemma weekday_windowStart (today : Date) (h : okDate today) :
    weekday (windowStart today) = 0 := by
  unfold windowStart
  rw [weekday_addDays today h]
  have := weekday_lt today
  omega

end Task01

namespace Task01

/-! ### Ordering: lexicographic date comparison agrees with ordinals -/

lemma mkDate_ok {y m d : Nat} {dt : Date} (h : mkDate y m d = .ok dt) :
    dt = ⟨y, m, d⟩ ∧ pyValid y m d := by
  by_cases hv : pyValid y m d
  · unfold mkDate at h
    rw [if_pos hv] at h
    injection h with h2
    exact ⟨h2.symm, hv⟩
  · unfold mkDate at h
    rw [if_neg hv] at h
    exact Except.noConfusion h

lemma okDate_of_pyValid {y m d : Nat} (h : pyValid y m d) : okDate ⟨y, m, d⟩ := by
  obtain ⟨h1, h2, h3, h4, h5, h6⟩ := h
  exact ⟨h1, h3, h4, h5, h6⟩

lemma dbm_cum_le (y m1 m2 : Nat) (h1 : 1 ≤ m1) (hlt : m1 < m2) (h2 : m2 ≤ 12) :
    daysBeforeMonth y m1 + daysInMonth y m1 ≤ daysBeforeMonth y m2 := by
  induction m2 with
  | zero => omega
  | succ k ih =>
    rcases Nat.lt_or_ge m1 k with hk | hk
    · have hih := ih hk (by omega)
      have hstep := dbm_step y k (by omega) (by omega)
      omega
    · have hmk : m1 = k := by omega
      subst hmk
      rw [dbm_step y m1 h1 (by omega)]

lemma ord_le_dby_succ (d : Date) (h : okDate d) :
    toOrdinal d ≤ daysBeforeYear (d.year + 1) := by
  obtain ⟨hy, hm1, hm2, hd1, hd2⟩ := h
  have hbd := dbm_dim_le d.year d.month hm1 hm2
  cases hL : isLeap d.year with
  | true =>
    rw [dby_step_leap d.year hy hL]
    simp [hL] at hbd
    unfold toOrdinal
    omega
  | false =>
    rw [dby_step_nonleap d.year hy hL]
    simp [hL] at hbd
    unfold toOrdinal
    omega

lemma dby_lt_ord (d : Date) (h : okDate d) :
    daysBeforeYear d.year < toOrdinal d := by
  obtain ⟨hy, hm1, hm2, hd1, hd2⟩ := h
  unfold toOrdinal
  omega

lemma ord_lt_of_dateLt {a b : Date} (ha : okDate a) (hb : okDate b)
    (h : dateLt a b) : toOrdinal a < toOrdinal b := by
  have ha' := ha
  have hb' := hb
  obtain ⟨hay, ham1, ham2, had1, had2⟩ := ha'
  obtain ⟨hby, hbm1, hbm2, hbd1, hbd2⟩ := hb'
  rcases h with hy | ⟨hy, hm | ⟨hm, hd⟩⟩
  · have hub := ord_le_dby_succ a ha
    have hmono : daysBeforeYear (a.year + 1) ≤ daysBeforeYear b.year :=
      dby_mono (by omega)
    have hlb := dby_lt_ord b hb
    omega
  · have hcum := dbm_cum_le a.year a.month b.month ham1 hm hbm2
    unfold toOrdinal
    rw [← hy]
    omega
  · unfold toOrdinal
    rw [← hy, ← hm]
    omega

lemma dateLt_total (a b : Date) (h : ¬ dateLt a b) : a = b ∨ dateLt b a := by
  obtain ⟨y1, m1, d1⟩ := a
  obtain ⟨y2, m2, d2⟩ := b
  unfold dateLt at h ⊢
  simp only [Date.mk.injEq]
  dsimp only at h ⊢
  omega

lemma ord_le_of_not_dateLt {a b : Date} (ha : okDate a) (hb : okDate b)
    (h : ¬ dateLt a b) : toOrdinal b ≤ toOrdinal a := by
  rcases dateLt_total a b h with rfl | hlt
  · exact le_refl _
  · exact le_of_lt (ord_lt_of_dateLt hb ha hlt)

/-! ### Facts about `resolveBirthday` -/

lemma resolveBirthday_ok {t bd b2 : Date} (ht : okDate t)
    (h : resolveBirthday t bd = .ok b2) :
    okDate b2 ∧ toOrdinal t ≤ toOrdinal b2 := by
  unfold resolveBirthday at h
  cases hm1 : mkDate t.year bd.month bd.day with
  | error e =>
    simp only [hm1] at h
    exact Except.noConfusion h
  | ok bty =>
    simp only [hm1] at h
    obtain ⟨hbty, hv⟩ := mkDate_ok hm1
    by_cases hlt : dateLt bty t
    · rw [if_pos hlt] at h
      obtain ⟨hb2, hv2⟩ := mkDate_ok h
      subst hb2
      refine ⟨okDate_of_pyValid hv2, ?_⟩
      have hyy : dateLt t ⟨t.year + 1, bty.month, bty.day⟩ := by
        unfold dateLt
        left
        dsimp only
        omega
      exact le_of_lt (ord_lt_of_dateLt ht (okDate_of_pyValid hv2) hyy)
    · rw [if_neg hlt] at h
      injection h with h2
      have hok : okDate bty := by rw [hbty]; exact okDate_of_pyValid hv
      rw [← h2]
      exact ⟨hok, ord_le_of_not_dateLt hok ht hlt⟩

lemma dateSub_nonneg_of_resolve {t bd b2 : Date} (ht : okDate t)
    (h : resolveBirthday t bd = .ok b2) : 0 ≤ dateSub b2 t := by
  have := (resolveBirthday_ok ht h).2
  unfold dateSub
  omega

end Task01

namespace Task01

/-! ### Facts about `strptimeDMY` and `processRecord` -/

lemma strptimeDMY_ne_empty {s : String} {bd : Date} (h : strptimeDMY s = .ok bd) :
    s ≠ "" := by
  intro he
  subst he
  have hev : strptimeDMY "" = .error (.valueError "time data does not match format") := rfl
  rw [hev] at h
  exact Except.noConfusion h

lemma strptimeDMY_pyValid {s : String} {bd : Date} (h : strptimeDMY s = .ok bd) :
    pyValid bd.year bd.month bd.day := by
  unfold strptimeDMY at h
  cases hp : parseDMY s.toList with
  | none =>
    simp only [hp] at h
    exact Except.noConfusion h
  | some trip =>
    obtain ⟨d, m, y⟩ := trip
    simp only [hp] at h
    obtain ⟨hbd, hv⟩ := mkDate_ok h
    rw [hbd]
    exact hv

lemma processRecord_none {t : Date} {bs : Buckets} {r : Record}
    (hb : r.birthday = none) :
    processRecord t bs r = .error .attributeError := by
  unfold processRecord
  rw [hb]

lemma processRecord_eq {t : Date} {bs : Buckets} {r : Record} {b : Birthday}
    {bd bty2 : Date} (hb : r.birthday = some b)
    (hp : strptimeDMY b.value = .ok bd)
    (hr : resolveBirthday t bd = .ok bty2) :
    processRecord t bs r = .ok (placeInBucket t bs r.name bty2) := by
  have hne : b.value ≠ "" := strptimeDMY_ne_empty hp
  unfold processRecord
  rw [hb]
  simp only [hne, if_pos, ne_eq, not_false_iff, if_true, hp, hr]

lemma processRecord_ok_inv {t : Date} {bs : Buckets} {r : Record} {bs' : Buckets}
    (h : processRecord t bs r = .ok bs') :
    bs' = bs ∨ ∃ b2, bs' = placeInBucket t bs r.name b2 := by
  unfold processRecord at h
  split at h
  · exact Except.noConfusion h
  · split at h
    · split at h
      · exact Except.noConfusion h
      · split at h
        · exact Except.noConfusion h
        · injection h with h2
          exact Or.inr ⟨_, h2.symm⟩
    · injection h with h2
      exact Or.inl h2.symm

/-! ### Bucket-key and name-count helpers -/

/-- No bucket key is a weekend day. -/
def noWeekendKeys : Buckets → Bool
  | [] => true
  | (k, _) :: rest => !(k == "Saturday" || k == "Sunday") && noWeekendKeys rest

lemma weekendToMonday_ne (wd : String) :
    weekendToMonday wd ≠ "Saturday" ∧ weekendToMonday wd ≠ "Sunday" := by
  unfold weekendToMonday
  by_cases h : (wd == "Saturday" || wd == "Sunday") = true
  · rw [if_pos h]
    exact ⟨by decide, by decide⟩
  · rw [if_neg h]
    simp only [Bool.or_eq_true, not_or, beq_iff_eq] at h
    exact h

lemma noWeekendKeys_bucketAdd {bs : Buckets} {k : String} (v : String)
    (hk : k ≠ "Saturday" ∧ k ≠ "Sunday")
    (h : noWeekendKeys bs = true) : noWeekendKeys (bucketAdd bs k v) = true := by
  induction bs with
  | nil =>
    simp [bucketAdd, noWeekendKeys, hk.1, hk.2]
  | cons hd tl ih =>
    obtain ⟨k2, vs⟩ := hd
    by_cases he : (k2 == k) = true
    · have hb : bucketAdd ((k2, vs) :: tl) k v = (k2, vs ++ [v]) :: tl := by
        simp only [bucketAdd]
        rw [if_pos he]
      rw [hb]
      have h1 : noWeekendKeys ((k2, vs) :: tl) =
          (!(k2 == "Saturday" || k2 == "Sunday") && noWeekendKeys tl) := rfl
      have h2 : noWeekendKeys ((k2, vs ++ [v]) :: tl) =
          (!(k2 == "Saturday" || k2 == "Sunday") && noWeekendKeys tl) := rfl
      rw [h1] at h
      rw [h2]
      exact h
    · have hb : bucketAdd ((k2, vs) :: tl) k v = (k2, vs) :: bucketAdd tl k v := by
        simp only [bucketAdd]
        rw [if_neg he]
      rw [hb]
      have h1 : noWeekendKeys ((k2, vs) :: tl) =
          (!(k2 == "Saturday" || k2 == "Sunday") && noWeekendKeys tl) := rfl
      have h2 : noWeekendKeys ((k2, vs) :: bucketAdd tl k v) =
          (!(k2 == "Saturday" || k2 == "Sunday") && noWeekendKeys (bucketAdd tl k v)) := rfl
      rw [h1, Bool.and_eq_true] at h
      rw [h2, Bool.and_eq_true]
      exact ⟨h.1, ih h.2⟩

lemma noWeekendKeys_placeInBucket {t : Date} {bs : Buckets} (nm : String)
    (b2 : Date) (h : noWeekendKeys bs = true) :
    noWeekendKeys (placeInBucket t bs nm b2) = true := by
  unfold placeInBucket
  by_cases hlt : dateSub b2 t < 7
  · rw [if_pos hlt]
    exact noWeekendKeys_bucketAdd nm (weekendToMonday_ne _) h
  · rw [if_neg hlt]
    exact h

/-- Total number of occurrences of `n` across all buckets. -/
def countName : Buckets → String → Nat
  | [], _ => 0
  | (_, vs) :: rest, n => vs.count n + countName rest n

lemma countName_bucketAdd (bs : Buckets) (k v n : String) :
    countName (bucketAdd bs k v) n =
      countName bs n + (if v = n then 1 else 0) := by
  induction bs with
  | nil =>
    show [v].count n + 0 = 0 + (if v = n then 1 else 0)
    by_cases hv : v = n <;> simp [hv, List.count_cons]
  | cons hd tl ih =>
    obtain ⟨k2, vs⟩ := hd
    by_cases he : (k2 == k) = true
    · have hb : bucketAdd ((k2, vs) :: tl) k v = (k2, vs ++ [v]) :: tl := by
        simp only [bucketAdd]
        rw [if_pos he]
      rw [hb]
      show (vs ++ [v]).count n + countName tl n =
        vs.count n + countName tl n + (if v = n then 1 else 0)
      rw [List.count_append]
      by_cases hv : v = n
      · simp [hv, List.count_cons]
        omega
      · simp [hv, List.count_cons]
    · have hb : bucketAdd ((k2, vs) :: tl) k v = (k2, vs) :: bucketAdd tl k v := by
        simp only [bucketAdd]
        rw [if_neg he]
      rw [hb]
      show vs.count n + countName (bucketAdd tl k v) n =
        vs.count n + countName tl n + (if v = n then 1 else 0)
      rw [ih]
      omega

lemma countName_placeInBucket (t : Date) (bs : Buckets) (nm : String)
    (b2 : Date) (n : String) :
    countName (placeInBucket t bs nm b2) n ≤
      countName bs n + (if nm = n then 1 else 0) := by
  unfold placeInBucket
  by_cases hlt : dateSub b2 t < 7
  · rw [if_pos hlt, countName_bucketAdd]
  · rw [if_neg hlt]
    omega

end Task01

namespace Task01

/-! ### Facts about the record loop `processAll` -/

lemma processAll_noWeekend {t : Date} (rs : List (String × Record)) :
    ∀ bs bs', processAll t bs rs = .ok bs' → noWeekendKeys bs = true →
      noWeekendKeys bs' = true := by
  induction rs with
  | nil =>
    intro bs bs' h hn
    simp only [processAll] at h
    injection h with h2
    rw [← h2]
    exact hn
  | cons p rest ih =>
    intro bs bs' h hn
    simp only [processAll] at h
    cases hp : processRecord t bs p.2 with
    | error e =>
      simp only [hp] at h
      exact Except.noConfusion h
    | ok bs1 =>
      simp only [hp] at h
      rcases processRecord_ok_inv hp with rfl | ⟨b2, rfl⟩
      · exact ih _ bs' h hn
      · exact ih _ bs' h (noWeekendKeys_placeInBucket _ _ hn)

lemma processAll_count {t : Date} (rs : List (String × Record)) :
    ∀ bs bs' (n : String), processAll t bs rs = .ok bs' →
      countName bs' n ≤ countName bs n + (rs.map (fun p => p.2.name)).count n := by
  induction rs with
  | nil =>
    intro bs bs' n h
    simp only [processAll] at h
    injection h with h2
    rw [← h2]
    simp
  | cons p rest ih =>
    intro bs bs' n h
    simp only [processAll] at h
    cases hp : processRecord t bs p.2 with
    | error e =>
      simp only [hp] at h
      exact Except.noConfusion h
    | ok bs1 =>
      simp only [hp] at h
      have h2 := ih bs1 bs' n h
      have h3 : countName bs1 n ≤ countName bs n + (if p.2.name = n then 1 else 0) := by
        rcases processRecord_ok_inv hp with rfl | ⟨b2, rfl⟩
        · omega
        · exact countName_placeInBucket _ _ _ _ _
      have h4 : ((p :: rest).map (fun q => q.2.name)).count n =
          (rest.map (fun q => q.2.name)).count n + (if p.2.name = n then 1 else 0) := by
        rw [List.map_cons, List.count_cons]
        by_cases he : p.2.name = n
        · simp [he]
        · simp [he]
      omega

lemma processAll_total {t : Date} (rs : List (String × Record))
    (hrec : ∀ p ∈ rs, ∀ bs, ∃ bs', processRecord t bs p.2 = .ok bs') :
    ∀ bs, ∃ bs', processAll t bs rs = .ok bs' := by
  induction rs with
  | nil => exact fun bs => ⟨bs, rfl⟩
  | cons p rest ih =>
    intro bs
    obtain ⟨bs1, h1⟩ := hrec p (by simp) bs
    obtain ⟨bs', h2⟩ := ih (fun q hq bs0 => hrec q (by simp [hq]) bs0) bs1
    refine ⟨bs', ?_⟩
    simp only [processAll, h1]
    exact h2

/-! ### Totality of `resolveBirthday` away from Feb 29 -/

lemma dim_not_feb (m : Nat) (hm : 1 ≤ m) (hm2 : m ≤ 12) (hne : m ≠ 2)
    (y y2 : Nat) : daysInMonth y m = daysInMonth y2 m := by
  interval_cases m <;> first | (exact absurd rfl hne) | rfl

lemma day_le_dim_all_years {bd : Date} (hv3 : 1 ≤ bd.month) (hv4 : bd.month ≤ 12)
    (hv6 : bd.day ≤ daysInMonth bd.year bd.month)
    (hfeb : ¬ (bd.month = 2 ∧ bd.day = 29)) (y : Nat) :
    bd.day ≤ daysInMonth y bd.month := by
  by_cases hm2 : bd.month = 2
  · have h29 : daysInMonth bd.year 2 ≤ 29 := by
      simp only [daysInMonth]
      split <;> omega
    have h28 : 28 ≤ daysInMonth y 2 := by
      simp only [daysInMonth]
      split <;> omega
    have hne : bd.day ≠ 29 := fun hc => hfeb ⟨hm2, hc⟩
    rw [hm2] at hv6 ⊢
    omega
  · rw [dim_not_feb bd.month hv3 hv4 hm2 y bd.year]
    exact hv6

lemma resolveBirthday_total {t bd : Date} (ht1 : 1 ≤ t.year)
    (ht2 : t.year + 1 ≤ 9999) (hv : pyValid bd.year bd.month bd.day)
    (hfeb : ¬ (bd.month = 2 ∧ bd.day = 29)) :
    ∃ b2, resolveBirthday t bd = .ok b2 := by
  obtain ⟨hv1, hv2, hv3, hv4, hv5, hv6⟩ := hv
  have hd1 : bd.day ≤ daysInMonth t.year bd.month :=
    day_le_dim_all_years hv3 hv4 hv6 hfeb t.year
  have hd2 : bd.day ≤ daysInMonth (t.year + 1) bd.month :=
    day_le_dim_all_years hv3 hv4 hv6 hfeb (t.year + 1)
  have hmk1 : mkDate t.year bd.month bd.day = .ok ⟨t.year, bd.month, bd.day⟩ := by
    unfold mkDate
    rw [if_pos ⟨ht1, by omega, hv3, hv4, hv5, hd1⟩]
  unfold resolveBirthday
  simp only [hmk1]
  by_cases hlt : dateLt ⟨t.year, bd.month, bd.day⟩ t
  · rw [if_pos hlt]
    refine ⟨⟨t.year + 1, bd.month, bd.day⟩, ?_⟩
    unfold mkDate
    rw [if_pos ⟨by omega, ht2, hv3, hv4, hv5, hd2⟩]
  · rw [if_neg hlt]
    exact ⟨_, rfl⟩

lemma windowStart_year_le (today : Date) (h : okDate today) :
    (windowStart today).year ≤ today.year + 1 := by
  have hs := addDays_spec today h ((7 - weekday today) % 7)
  rw [show addDays today ((7 - weekday today) % 7) = windowStart today from rfl] at hs
  have hk : (7 - weekday today) % 7 ≤ 6 := by omega
  by_contra hgt
  push_neg at hgt
  have h1 : daysBeforeYear (windowStart today).year < toOrdinal (windowStart today) :=
    dby_lt_ord _ hs.1
  have h2 : toOrdinal today ≤ daysBeforeYear (today.year + 1) := ord_le_dby_succ today h
  have h3 : daysBeforeYear (today.year + 2) ≤ daysBeforeYear (windowStart today).year :=
    dby_mono (by omega)
  have h4 : daysBeforeYear (today.year + 1) + 365 ≤ daysBeforeYear (today.year + 2) :=
    dby_succ_le _ (by omega)
  have h5 := hs.2
  omega

end Task01

namespace Task01

/-! ### The claims -/

/-- C1: the spec says a contact with no birthday is skipped with no error
and appears in no bucket; the code reads `record.birthday.value` (line 96)
before the `if birthday:` check (line 97), so such a contact makes
`get_birthdays_per_week` raise `AttributeError` instead. Evaluation of the
embedded code at a one-contact book with no birthday set. -/
theorem c1_missing_birthday_raises :
    get_birthdays_per_week ⟨2024, 3, 6⟩ ⟨[("Alice", ⟨"Alice", [], none⟩)]⟩ =
      .error .attributeError := rfl

/-- C2 (counterexample): on a Monday (2024-01-01), `(7 - 0) % 7 = 0`, so
the window start is today itself, not `today + 7` as the claim states. -/
theorem c2_counterexample :
    weekday ⟨2024, 1, 1⟩ = 0 ∧
      windowStart ⟨2024, 1, 1⟩ ≠ addDays ⟨2024, 1, 1⟩ 7 := by
  exact ⟨by decide, by decide⟩

/-- C2 (amended): the window start equals
`today + ((7 - weekday_index(today)) mod 7)` days, it always falls on a
Monday, and when today is itself a Monday the window start equals today
(offset 0), not `today + 7`. -/
theorem c2_window_start (today : Date) (h : okDate today) :
    windowStart today = addDays today ((7 - weekday today) % 7) ∧
    weekday (windowStart today) = 0 ∧
    (weekday today = 0 → windowStart today = today) := by
  refine ⟨rfl, weekday_windowStart today h, fun h0 => ?_⟩
  unfold windowStart
  rw [h0]
  rfl

/-- C2 witness at 2024-03-06 (a Wednesday). -/
theorem c2_window_start_witness :
    windowStart ⟨2024, 3, 6⟩ = addDays ⟨2024, 3, 6⟩ ((7 - weekday ⟨2024, 3, 6⟩) % 7) ∧
    weekday (windowStart ⟨2024, 3, 6⟩) = 0 ∧
    (weekday ⟨2024, 3, 6⟩ = 0 → windowStart ⟨2024, 3, 6⟩ = ⟨2024, 3, 6⟩) :=
  c2_window_start ⟨2024, 3, 6⟩ (by decide)

/-- C3 (counterexample): all birthdays in the book are valid calendar
dates (Feb 29, 2020 is valid), yet `get_birthdays_per_week` raises
`ValueError` because `date.replace(year=2023)` rejects Feb 29 in a
non-leap year — Python errors rather than clamping. -/
theorem c3_counterexample :
    get_birthdays_per_week ⟨2023, 5, 1⟩
      ⟨[("Kate", ⟨"Kate", [], some ⟨"29.02.2020"⟩⟩)]⟩ =
      .error (.valueError "day is out of range for month") := rfl

/-- C3 (amended): `get_birthdays_per_week` raises no exception provided
every contact has a birthday set, every birthday parses as a valid
`%d.%m.%Y` date, no birthday is Feb 29, and the window year stays in
`date`'s range; a Feb 29 birthday re-anchored to a non-leap year raises
`ValueError` (the date library errors rather than clamps). -/
theorem c3_no_exception_without_feb29 (today : Date) (h : okDate today)
    (hy : today.year ≤ 9997) (book : AddressBook)
    (hb : ∀ p ∈ book.data, ∃ b bd, (p.2 : Record).birthday = some b ∧
      strptimeDMY b.value = .ok bd ∧ ¬ (bd.month = 2 ∧ bd.day = 29)) :
    ∃ bs, get_birthdays_per_week today book = .ok bs := by
  unfold get_birthdays_per_week
  have hws := okDate_windowStart today h
  have hwy := windowStart_year_le today h
  have hrec : ∀ p ∈ book.data, ∀ bs,
      ∃ bs', processRecord (windowStart today) bs p.2 = .ok bs' := by
    intro p hp bs
    obtain ⟨b, bd, hbd, hps, hfeb⟩ := hb p hp
    have hv := strptimeDMY_pyValid hps
    obtain ⟨b2, hres⟩ := resolveBirthday_total (t := windowStart today)
      hws.1 (by omega) hv hfeb
    exact ⟨_, processRecord_eq hbd hps hres⟩
  exact processAll_total book.data hrec []

/-- C3 witness: a one-contact book with a valid non-Feb-29 birthday. -/
theorem c3_no_exception_witness :
    ∃ bs, get_birthdays_per_week ⟨2024, 3, 6⟩
      ⟨[("Eve", ⟨"Eve", [], some ⟨"12.03.2024"⟩⟩)]⟩ = .ok bs :=
  c3_no_exception_without_feb29 ⟨2024, 3, 6⟩ (by decide) (by decide)
    ⟨[("Eve", ⟨"Eve", [], some ⟨"12.03.2024"⟩⟩)]⟩
    (by
      intro p hp
      simp only [List.mem_singleton] at hp
      subst hp
      exact ⟨⟨"12.03.2024"⟩, ⟨2024, 3, 12⟩, rfl, rfl, by decide⟩)

/-- C4: the spec says every stored phone is exactly 10 digits and every
Record operation preserves this; `edit_phone` (lines 59-61) assigns
`phone.value = new_number` with no validation, so a 5-character string
ends up stored. Evaluation of the embedded code at the failing input. -/
theorem c4_edit_phone_unvalidated :
    Record.edit_phone ⟨"Bob", [⟨"0123456789"⟩], none⟩ "0123456789" "12345" =
      .ok ⟨"Bob", [⟨"12345"⟩], none⟩ ∧ phoneValid "12345" = false :=
  ⟨rfl, rfl⟩

end Task01

namespace Task01

lemma processAll_singleton {t : Date} {bs bs' : Buckets} {p : String × Record}
    (h : processRecord t bs p.2 = .ok bs') : processAll t bs [p] = .ok bs' := by
  simp only [processAll, h]

/-- C5: a contact with a (valid, resolvable) birthday is placed in a
bucket if and only if its `delta_days = (resolved birthday) - window
start` satisfies `0 ≤ delta_days < 7`; in particular `delta_days = 0`
(birthday on the window start itself) lands in the Monday bucket. Stated
for a one-contact book so that bucket membership is exactly the contact's
occurrence count being nonzero. -/
theorem c5_bucket_iff_window (today : Date) (h : okDate today)
    (nm : String) (phones : List Phone) (bstr : String) (bd bty2 : Date)
    (hp : strptimeDMY bstr = .ok bd)
    (hr : resolveBirthday (windowStart today) bd = .ok bty2) :
    ∃ bs, get_birthdays_per_week today ⟨[(nm, ⟨nm, phones, some ⟨bstr⟩⟩)]⟩ = .ok bs ∧
      (countName bs nm ≠ 0 ↔
        (0 ≤ dateSub bty2 (windowStart today) ∧
          dateSub bty2 (windowStart today) < 7)) ∧
      (dateSub bty2 (windowStart today) = 0 → bs = [("Monday", [nm])]) := by
  have hpr : processRecord (windowStart today) [] (⟨nm, phones, some ⟨bstr⟩⟩ : Record) =
      .ok (placeInBucket (windowStart today) [] nm bty2) :=
    processRecord_eq rfl hp hr
  have h0 : 0 ≤ dateSub bty2 (windowStart today) :=
    dateSub_nonneg_of_resolve (okDate_windowStart today h) hr
  refine ⟨placeInBucket (windowStart today) [] nm bty2, ?_, ?_, ?_⟩
  · unfold get_birthdays_per_week
    exact processAll_singleton hpr
  · unfold placeInBucket
    by_cases hlt : dateSub bty2 (windowStart today) < 7
    · rw [if_pos hlt, countName_bucketAdd]
      constructor
      · intro _
        exact ⟨h0, hlt⟩
      · intro _
        simp
    · rw [if_neg hlt]
      constructor
      · intro hc
        exact absurd rfl hc
      · intro hc
        exact absurd hc.2 hlt
  · intro h0eq
    unfold placeInBucket
    rw [if_pos (by omega : dateSub bty2 (windowStart today) < 7)]
    rw [h0eq]
    rw [show addDaysInt (windowStart today) 0 = windowStart today from rfl]
    unfold strftimeA
    rw [weekday_windowStart today h]
    rfl

/-- C5 witness: Eve's birthday is one day after the window start
(2024-03-11) so she lands in the Tuesday bucket; the delta is 1. -/
theorem c5_bucket_iff_window_witness :
    ∃ bs, get_birthdays_per_week ⟨2024, 3, 6⟩
        ⟨[("Eve", ⟨"Eve", [], some ⟨"12.03.2024"⟩⟩)]⟩ = .ok bs ∧
      (countName bs "Eve" ≠ 0 ↔
        (0 ≤ dateSub ⟨2024, 3, 12⟩ (windowStart ⟨2024, 3, 6⟩) ∧
          dateSub ⟨2024, 3, 12⟩ (windowStart ⟨2024, 3, 6⟩) < 7)) ∧
      (dateSub ⟨2024, 3, 12⟩ (windowStart ⟨2024, 3, 6⟩) = 0 →
        bs = [("Monday", ["Eve"])]) :=
  c5_bucket_iff_window ⟨2024, 3, 6⟩ (by decide) "Eve" [] "12.03.2024"
    ⟨2024, 3, 12⟩ ⟨2024, 3, 12⟩ rfl rfl

/-- C6: when the birthday anchored to the window start's year falls
strictly before the window start, the code re-anchors it to the next
year, and the bucket decision (`placeInBucket`: delta computation, 7-day
test, weekday naming, weekend remap, append) is applied to that advanced
date — including the propagation of a `ValueError` should the advanced
date be invalid. -/
theorem c6_advance_year (today : Date) (bs : Buckets) (r : Record)
    (b : Birthday) (bd bty : Date) (hb : r.birthday = some b)
    (hp : strptimeDMY b.value = .ok bd)
    (h1 : mkDate (windowStart today).year bd.month bd.day = .ok bty)
    (hlt : dateLt bty (windowStart today)) :
    resolveBirthday (windowStart today) bd =
      mkDate ((windowStart today).year + 1) bty.month bty.day ∧
    processRecord (windowStart today) bs r =
      (mkDate ((windowStart today).year + 1) bty.month bty.day).map
        (placeInBucket (windowStart today) bs r.name) := by
  have hne : b.value ≠ "" := strptimeDMY_ne_empty hp
  have hres : resolveBirthday (windowStart today) bd =
      mkDate ((windowStart today).year + 1) bty.month bty.day := by
    unfold resolveBirthday
    simp only [h1]
    rw [if_pos hlt]
  refine ⟨hres, ?_⟩
  have hpr : processRecord (windowStart today) bs r =
      match resolveBirthday (windowStart today) bd with
      | .error e => .error e
      | .ok b2 => .ok (placeInBucket (windowStart today) bs r.name b2) := by
    unfold processRecord
    simp only [hb]
    rw [if_pos hne]
    simp only [hp]
  rw [hpr, hres]
  cases hm2 : mkDate ((windowStart today).year + 1) bty.month bty.day with
  | error e => rfl
  | ok b2 => rfl

/-- C6 witness: Dave's birthday (Jan 5) has already passed relative to
the window start 2024-03-11, so it is re-anchored to 2025. -/
theorem c6_advance_year_witness :
    resolveBirthday (windowStart ⟨2024, 3, 6⟩) ⟨2024, 1, 5⟩ =
      mkDate ((windowStart ⟨2024, 3, 6⟩).year + 1) 1 5 ∧
    processRecord (windowStart ⟨2024, 3, 6⟩) []
        ⟨"Dave", [], some ⟨"05.01.2024"⟩⟩ =
      (mkDate ((windowStart ⟨2024, 3, 6⟩).year + 1) 1 5).map
        (placeInBucket (windowStart ⟨2024, 3, 6⟩) [] "Dave") :=
  c6_advance_year ⟨2024, 3, 6⟩ [] ⟨"Dave", [], some ⟨"05.01.2024"⟩⟩
    ⟨"05.01.2024"⟩ ⟨2024, 1, 5⟩ ⟨2024, 1, 5⟩ rfl rfl rfl (by decide)

/-- C7: whenever `get_birthdays_per_week` returns a mapping, none of its
keys is "Saturday" or "Sunday": the weekday computed for a kept birthday
is remapped to "Monday" before insertion whenever it is a weekend day. -/
theorem c7_no_weekend_keys (today : Date) (book : AddressBook) (bs : Buckets)
    (h : get_birthdays_per_week today book = .ok bs) :
    noWeekendKeys bs = true := by
  unfold get_birthdays_per_week at h
  exact processAll_noWeekend book.data [] bs h rfl

/-- C7 witness: the concrete output for Eve's book has no weekend key. -/
theorem c7_no_weekend_keys_witness : noWeekendKeys [("Tuesday", ["Eve"])] = true :=
  c7_no_weekend_keys ⟨2024, 3, 6⟩ ⟨[("Eve", ⟨"Eve", [], some ⟨"12.03.2024"⟩⟩)]⟩
    [("Tuesday", ["Eve"])] rfl

/-- C8: when the record names in the book are pairwise distinct (as the
name-keyed dict guarantees) and `get_birthdays_per_week` returns a
mapping, any name that occurs in the output occurs exactly once across
all buckets — one bucket, once in it, even when the birthday equals the
window start. -/
theorem c8_name_appears_once (today : Date) (book : AddressBook)
    (bs : Buckets) (n : String)
    (hnd : (book.data.map (fun p => p.2.name)).Nodup)
    (h : get_birthdays_per_week today book = .ok bs)
    (hocc : 1 ≤ countName bs n) : countName bs n = 1 := by
  unfold get_birthdays_per_week at h
  have h1 := processAll_count book.data [] bs n h
  have h2 : (book.data.map (fun p => p.2.name)).count n ≤ 1 :=
    List.nodup_iff_count_le_one.mp hnd n
  have h3 : countName ([] : Buckets) n = 0 := rfl
  omega

/-- C8 witness: Eve appears exactly once in the output of her book. -/
theorem c8_name_appears_once_witness : countName [("Tuesday", ["Eve"])] "Eve" = 1 :=
  c8_name_appears_once ⟨2024, 3, 6⟩ ⟨[("Eve", ⟨"Eve", [], some ⟨"12.03.2024"⟩⟩)]⟩
    [("Tuesday", ["Eve"])] "Eve" (by decide) rfl (by decide)

/-- C9: `add_birthday` on a record that already has a birthday raises
`ValueError` and (the embedding being functional) returns no modified
record, so the stored birthday is unchanged; on a record without a
birthday and a string accepted by the `%d.%m.%Y` validator it stores
exactly that birthday. -/
theorem c9_birthday_immutable (r : Record) (s : String) :
    (∀ b0, r.birthday = some b0 →
      Record.add_birthday r s =
        .error (.valueError "Birthday already exists for this contact")) ∧
    (r.birthday = none → birthdayValid s = true →
      Record.add_birthday r s = .ok { r with birthday := some ⟨s⟩ }) := by
  constructor
  · intro b0 hb
    unfold Record.add_birthday
    rw [hb]
  · intro hb hs
    unfold Record.add_birthday
    rw [hb]
    unfold mkBirthday
    rw [if_pos hs]
    rfl

/-- C9 witness: re-setting a birthday fails; setting a fresh one works. -/
theorem c9_birthday_immutable_witness :
    Record.add_birthday ⟨"A", [], some ⟨"01.01.2000"⟩⟩ "02.02.2002" =
      .error (.valueError "Birthday already exists for this contact") ∧
    Record.add_birthday ⟨"B", [], none⟩ "02.02.2002" =
      .ok ⟨"B", [], some ⟨"02.02.2002"⟩⟩ :=
  ⟨(c9_birthday_immutable ⟨"A", [], some ⟨"01.01.2000"⟩⟩ "02.02.2002").1 ⟨"01.01.2000"⟩ rfl,
   (c9_birthday_immutable ⟨"B", [], none⟩ "02.02.2002").2 rfl rfl⟩

/-- C10: `add_record` stores the record under its name with plain dict
assignment: if the key already exists the old record (phones, birthday
and all) is replaced and a later `find` returns exactly the new record;
no code path raises. -/
theorem c10_add_record_replaces (book : AddressBook) (r : Record) :
    AddressBook.find (AddressBook.add_record book r) r.name = some r := by
  obtain ⟨data⟩ := book
  unfold AddressBook.add_record AddressBook.find
  dsimp only
  induction data with
  | nil =>
    simp [dictSet, List.find?]
  | cons hd tl ih =>
    obtain ⟨k2, r2⟩ := hd
    by_cases he : (k2 == r.name) = true
    · have hb : dictSet ((k2, r2) :: tl) r.name r = (r.name, r) :: tl := by
        simp only [dictSet]
        rw [if_pos he]
      rw [hb]
      simp [List.find?]
    · have hb : dictSet ((k2, r2) :: tl) r.name r = (k2, r2) :: dictSet tl r.name r := by
        simp only [dictSet]
        rw [if_neg he]
      rw [hb]
      rw [List.find?_cons_of_neg _ (by simpa using he)]
      exact ih

end Task01
